import Mathlib

/-
Verification of the historical SPL-token price resolver
(repository `solana-swap-decode`, package `spltoken/price`).

The development shallowly embeds the Go functions that the verified
properties talk about:

* `minuteFloor`               (price_at_time.go)
* `cappedAdd`                 (utils.go)
* `mustStableMintsFromEnv`    (config.go)
* `VWAPWithLogFence`          (utils.go)
* `FilterTxsByMint`           (filter.go)
* the per-swap pricing loop of `GetPricesAtSlot`      (price.go)
* the backoff loop of `GetTokenUSDPriceAtUnix`        (price_at_time.go)
* `SlotAtClosest`             (utils.go, minute-slack version)

Conventions of the embedding:

* Go `float64` values are modelled as exact rationals `ℚ`; `NaN`/`Inf`
  do not exist in `ℚ`, so the source's `IsNaN`/`IsInf` guards are
  vacuously false in the model and are noted where they occur.
  `math.Log` is modelled as `Real.log` on the cast to `ℝ`.
* Go `uint64`/`int64` are modelled as `ℕ`/`ℤ`; arithmetic that can wrap
  in the source carries an explicit `% 2 ^ 64`.
* RPC calls are oracles: explicit function arguments of the embedded
  definitions (`ℕ → Option ℤ` for `getBlockTime`, etc.).
* Mint public keys are carried in their base58 string form, because the
  pricing code compares them with `strings.EqualFold` on strings.
-/

set_option maxRecDepth 4000

set_option allowUnsafeReducibility true
attribute [local semireducible] Rat.mul Rat.inv Rat.add Rat.sub

namespace SwapDecode

/-! ## Shared data: mints -/

/-- Base58 string form of a mint public key (how `price.go` compares mints). -/
abbrev Mint := String

/-- Wrapped SOL mint constant `WrappedSOL` from `price.go`. -/
def wrappedSOL : Mint := "So11111111111111111111111111111111111111112"

/-- Base58 form of the zero `solana.PublicKey` (32 zero bytes). -/
def zeroMint : Mint := "11111111111111111111111111111111"

/-- ASCII lower-casing of one character (base58 mint strings are pure
ASCII, where Go's Unicode simple folding coincides with ASCII case
folding). -/
def lowerChar (c : Char) : Char :=
  if 65 ≤ c.toNat ∧ c.toNat ≤ 90 then Char.ofNat (c.toNat + 32) else c

/-- Model of `strings.EqualFold` on ASCII strings: case-insensitive
equality. -/
def eqFold (a b : String) : Bool :=
  a.data.map lowerChar == b.data.map lowerChar

/-! ## minuteFloor (price_at_time.go) -/

/-- `minuteFloor` from `price_at_time.go`:
`(ms / oneMinMs) * oneMinMs` with `oneMinMs = 60000`, where `/` is Go
`int64` division, i.e. truncation toward zero (`Int.tdiv`). -/
def minuteFloor (ms : ℤ) : ℤ := (Int.tdiv ms 60000) * 60000

/-! ## cappedAdd (utils.go) -/

/-- `cappedAdd` from `utils.go`: returns `a + b` clamped to `[0, max]`.
`a` and `mx` are `uint64`, `b` is `int64`; the `uint64` sum
`a + uint64(b)` is modelled with an explicit `% 2 ^ 64`, and the
source's wraparound test `u < a` is kept verbatim.  For `b < 0` the
source computes `nb := uint64(-b)`; for every `int64` `b < 0`
(including the minimal one, where Go's negation wraps) that conversion
equals the mathematical `(-b).toNat`, which is what the model uses. -/
def cappedAdd (a : ℕ) (b : ℤ) (mx : ℕ) : ℕ :=
  if b = 0 then a
  else if 0 < b then
    let u := (a + b.toNat) % 2 ^ 64
    if u < a then mx
    else if mx < u then mx
    else u
  else
    let nb := (-b).toNat
    if nb > a then 0
    else a - nb

/-! ## mustStableMintsFromEnv (config.go) -/

/-- `mustStableMintsFromEnv` from `config.go`.  `usdcEnv`/`usdtEnv` are
the raw values of the two environment variables (`os.Getenv` yields `""`
when unset); `parse` is the oracle for `solana.PublicKeyFromBase58`
(`none` = error).  When parsing fails the corresponding key keeps its
zero value, exactly as in the source. -/
def mustStableMintsFromEnv (parse : String → Option Mint)
    (usdcEnv usdtEnv : String) : Mint × Mint :=
  (match parse usdcEnv with
   | some pk => pk
   | none => zeroMint,
   match parse usdtEnv with
   | some pk => pk
   | none => zeroMint)

/-- Modelled from the spec: the known mainnet USDC mint the spec says the
configuration "defaults to" when the variable is unset or invalid. -/
def mainnetUSDC : Mint := "EPjFWdd5AufqSSqeM2qN1xzybapC8G4wEGGkZwyTDt1v"

/-- Modelled from the spec: the known mainnet USDT mint the spec says the
configuration "defaults to" when the variable is unset or invalid. -/
def mainnetUSDT : Mint := "Es9vMFrzaCERmJfrF4H2FYD4KCoNkY11McCe8BenwNYB"

/-- Modelled from the spec: stablecoin-mint configuration as the spec
words it — "defaults to known mainnet mints if unset or invalid". -/
def specStableMintsFromEnv (parse : String → Option Mint)
    (usdcEnv usdtEnv : String) : Mint × Mint :=
  (match parse usdcEnv with
   | some pk => pk
   | none => mainnetUSDC,
   match parse usdtEnv with
   | some pk => pk
   | none => mainnetUSDT)

/-! ## VWAPWithLogFence (utils.go) -/

/-- One filtered (price, weight) pair — the local `pw` struct of
`VWAPWithLogFence`. -/
structure PW where
  p : ℚ
  w : ℚ
deriving Repr, DecidableEq

/-- Step 1 of `VWAPWithLogFence` (utils.go): the dust filter.  The
source keeps index `i` iff `weights[i] >= minWeight` and `values[i]` is
neither `NaN` nor `Inf`; the latter two do not exist in the rational
model, so only the weight test remains.  The source iterates `i` over
`0 .. n-1` with `n = len(values) = len(weights)` (checked by the
caller); the zip realizes the same pairing. -/
def dustFilter (values weights : List ℚ) (minWeight : ℚ) : List PW :=
  ((values.zip weights).filter (fun x => minWeight ≤ x.2)).map
    (fun x => ⟨x.1, x.2⟩)

/-- Step 2 of `VWAPWithLogFence`: the unweighted median — sort the
prices ascending, take the middle element, or `0.5 * (lower + upper)`
of the two middle elements when the length is even.  The source indexes
a slice it has checked to be non-empty; the embedding's `getD` default
`0` is reachable only on the empty list. -/
def medianOf (ps : List ℚ) : ℚ :=
  let s := List.insertionSort (· ≤ ·) ps
  let m := s.length
  if m % 2 = 1 then s.getD (m / 2) 0
  else (s.getD (m / 2 - 1) 0 + s.getD (m / 2) 0) / 2

/-- Step 3 fence test of `VWAPWithLogFence`: the source first skips
entries with `x.p <= 0` and then tests
`math.Abs(math.Log(x.p) - lnMed) <= lnR`; `math.Log` is modelled as
`Real.log` on the casts to `ℝ`. -/
def fenceKeeps (r med p : ℚ) : Prop :=
  0 < p ∧ |Real.log (p : ℝ) - Real.log (med : ℝ)| ≤ Real.log (r : ℝ)

noncomputable instance (r med p : ℚ) : Decidable (fenceKeeps r med p) :=
  Classical.propDecidable _

/-- Step 3 of `VWAPWithLogFence`: the sub-list of dust-filtered entries
that pass the fence, in order; the source accumulates `sumW`, `sumWP`
and `kept` over exactly these entries. -/
noncomputable def fenceKept (f : List PW) (r med : ℚ) : List PW :=
  f.filter (fun x => decide (fenceKeeps r med x.p))

/-- `VWAPWithLogFence` from `utils.go` over the rational model: returns
`(vwap, keptCount, weightSum, ok)`.  `r <= 1.0` (the source rejects
`r ≤ 1`), the empty input, and mismatched lengths short-circuit to the
not-ok result, as do an empty dust filter, a non-positive median and a
non-positive kept weight sum. -/
noncomputable def VWAPWithLogFence (values weights : List ℚ)
    (r minWeight : ℚ) : ℚ × ℕ × ℚ × Bool :=
  if values.length = 0 ∨ values.length ≠ weights.length ∨ r ≤ 1 then
    (0, 0, 0, false)
  else
    let f := dustFilter values weights minWeight
    if f.length = 0 then (0, 0, 0, false)
    else
      let med := medianOf (f.map PW.p)
      if med ≤ 0 then (0, 0, 0, false)
      else
        let kept := fenceKept f r med
        let sumW := (kept.map PW.w).sum
        let sumWP := (kept.map (fun x => x.w * x.p)).sum
        if sumW ≤ 0 then (0, 0, 0, false)
        else (sumWP / sumW, kept.length, sumW, true)

/-- Modelled from the spec (the reading asserted by the claim about
step 1): drop entries where `weight < minWeight` *or* `value ≤ 0`
(NaN/Inf being absent from `ℚ`), before the median is taken. -/
def specStep1 (values weights : List ℚ) (minWeight : ℚ) : List PW :=
  ((values.zip weights).filter
      (fun x => decide (minWeight ≤ x.2) && decide (0 < x.1))).map
    (fun x => ⟨x.1, x.2⟩)

/-! ## FilterTxsByMint (filter.go) -/

/-- One pre- or post-token-balance row of a transaction's metadata:
`(accountIndex, mint, amount)`.  The source carries amounts as decimal
strings of raw base units and parses them with `big.Int.SetString`
(parse failure maps to `0`); the model carries them already parsed as
`ℕ`, since raw token amounts are unsigned. -/
structure TokenBalanceRow where
  accountIndex : ℕ
  mint : Mint
  amount : ℕ
deriving Repr, DecidableEq

/-- One transaction as `FilterTxsByMint` consumes it: `meta = none`
models `txw.Meta == nil` (such transactions are skipped); otherwise the
pre and post token-balance row lists.  Signature decoding, account-key
resolution and block-time selection are best-effort bookkeeping in the
source that the kept/dropped decision never reads; they are not
modelled. -/
structure TxWithMeta where
  meta : Option (List TokenBalanceRow × List TokenBalanceRow)
deriving Repr, DecidableEq

/-- Token-balance rows of the target mint (mint equality in filter.go is
`b.Mint.Equals(targetMint)`, exact equality). -/
def rowsOfMint (rows : List TokenBalanceRow) (target : Mint) :
    List TokenBalanceRow :=
  rows.filter (fun r => r.mint == target)

/-- Last matching row for `idx` — Go fills `preByIdx`/`postByIdx` by map
assignment in slice order, so a later row for the same account index
overwrites an earlier one. -/
def lastRowFor (rows : List TokenBalanceRow) (target : Mint) (idx : ℕ) :
    Option TokenBalanceRow :=
  ((rowsOfMint rows target).filter (fun r => r.accountIndex == idx)).getLast?

/-- Amount of an optional row, `0` when absent (the source's `"0"`
default for a missing pre/post side). -/
def rowAmount (r : Option TokenBalanceRow) : ℕ :=
  match r with
  | some r => r.amount
  | none => 0

/-- The union `keys(preByIdx) ∪ keys(postByIdx)` of touched account
indices (the source's `seen` set).  Go map iteration order is
randomized; the model fixes first-appearance order, which is irrelevant
to the kept/dropped decision and to each delta. -/
def touchedIdxs (pre post : List TokenBalanceRow) (target : Mint) :
    List ℕ :=
  (((rowsOfMint pre target).map TokenBalanceRow.accountIndex) ++
    ((rowsOfMint post target).map TokenBalanceRow.accountIndex)).dedup

/-- Per-account delta on the target mint:
`parse(postAmt) - parse(preAmt)` over arbitrary-precision integers. -/
def deltaAt (pre post : List TokenBalanceRow) (target : Mint) (idx : ℕ) :
    ℤ :=
  (rowAmount (lastRowFor post target idx) : ℤ) -
    (rowAmount (lastRowFor pre target idx) : ℤ)

/-- One `BalanceTouch` of filter.go (owner/account-key resolution not
modelled). -/
structure BalanceTouch where
  accountIndex : ℕ
  preAmount : ℕ
  postAmount : ℕ
  delta : ℤ
deriving Repr, DecidableEq

/-- The kept `FilteredTx` of filter.go, restricted to the fields the
keeping decision and the downstream pricing read. -/
structure FilteredTx where
  perAccountDelta : List (ℕ × ℤ)
  totalDelta : ℤ
  touches : List BalanceTouch
deriving Repr, DecidableEq

/-- Per-transaction body of `FilterTxsByMint` (filter.go): `none` when
the transaction is skipped (nil metadata, the mint never appears in the
pre/post rows, or every per-account delta is zero), and the built
`FilteredTx` otherwise. -/
def processTx (target : Mint) (tx : TxWithMeta) : Option FilteredTx :=
  match tx.meta with
  | none => none
  | some (pre, post) =>
    if rowsOfMint pre target = [] ∧ rowsOfMint post target = [] then none
    else
      let idxs := touchedIdxs pre post target
      let anyNonZero :=
        idxs.any (fun idx => decide (deltaAt pre post target idx ≠ 0))
      if anyNonZero then
        some
          { perAccountDelta :=
              idxs.map (fun idx => (idx, deltaAt pre post target idx))
            totalDelta :=
              (idxs.map (fun idx => deltaAt pre post target idx)).sum
            touches :=
              idxs.map (fun idx =>
                { accountIndex := idx
                  preAmount := rowAmount (lastRowFor pre target idx)
                  postAmount := rowAmount (lastRowFor post target idx)
                  delta := deltaAt pre post target idx }) }
      else none

/-- Per-account delta of a whole transaction (zero when the metadata is
absent), used to state the keep/drop characterization. -/
def txDeltaAt (target : Mint) (tx : TxWithMeta) (idx : ℕ) : ℤ :=
  match tx.meta with
  | none => 0
  | some (pre, post) => deltaAt pre post target idx

/-- `FilterTxsByMint` over one fetched block: the kept transactions in
block order. -/
def filterTxsByMint (txs : List TxWithMeta) (target : Mint) :
    List FilteredTx :=
  txs.filterMap (processTx target)

/-! ## GetPricesAtSlot pricing loop (price.go) -/

/-- Minimal shape taken from the parser's swap info (`swapSummary` in
price.go): in/out mint, raw amount, decimals. -/
structure SwapSummary where
  tokenInMint : Mint
  tokenInAmount : ℕ
  tokenInDecimals : ℕ
  tokenOutMint : Mint
  tokenOutAmount : ℕ
  tokenOutDecimals : ℕ
deriving Repr, DecidableEq

/-- Result of `GetTransaction` for one candidate.  `summary = none`
models a failure of any of `NewTransactionParser` / `ParseTransaction` /
`ProcessSwapData` / the summary re-marshalling — each of those makes the
loop `continue`. -/
structure FetchedTx where
  txBlockTime : Option ℤ
  summary : Option SwapSummary
deriving Repr, DecidableEq

/-- One entry of the `FilterTxsByMint` result as the pricing loop reads
it: signature presence, the fallback block time, and the per-signature
`GetTransaction` oracle result (`none` = RPC error or nil
transaction). -/
structure TxCandidate where
  hasSig : Bool
  ftBlockTime : ℤ
  fetched : Option FetchedTx
deriving Repr, DecidableEq

/-- `PricePoint` (price.go), restricted to the fields the pricing loop
writes and the downstream collection reads.  Per the source's own
documentation, `priceUSD = 0` encodes "not available". -/
structure PricePoint where
  slot : ℕ
  blockTime : ℤ
  priceSOLPerToken : ℚ
  priceUSD : ℚ
  targetMint : Mint
  baseMint : Mint
  baseIsSOL : Bool
  baseIsStable : Bool
  baseAmountRaw : ℕ
  baseDecimals : ℕ
  targetQtyFloat : ℚ
deriving Repr, DecidableEq

/-- Minute-start cache key of `solUSDCacher.getAtUnix` (price.go):
`time.Unix(t, 0).UTC().Truncate(time.Minute).Unix()`, the floor of `t`
to a multiple of 60 seconds (`/` is `Int.ediv` here: `Truncate` floors
relative to a whole-minute epoch). -/
def minuteStart (t : ℤ) : ℤ := 60 * (t / 60)

/-- Loop body of `GetPricesAtSlot` (price.go) for one filtered
candidate: the price point appended for it, or `none` when the source
`continue`s.  `solUsd` is the oracle behind the cached SOL/USD
minute-close lookup (`none` = lookup error), keyed by minute start (the
mutex-guarded cache only memoizes this pure lookup).  Notable source
behavior kept by the model: a SOL-counter candidate whose lookup fails
or returns a non-positive price leaves `priceUSD = 0` via `break` — not
`continue` — and the point is still appended. -/
def processCandidate (slot : ℕ) (targetMint usdcMint usdtMint : Mint)
    (solUsd : ℤ → Option ℚ) (ft : TxCandidate) : Option PricePoint :=
  if ft.hasSig = false then none
  else
    match ft.fetched with
    | none => none
    | some tx =>
      match tx.summary with
      | none => none
      | some sum =>
        let bt : ℤ :=
          match tx.txBlockTime with
          | some t => t
          | none => ft.ftBlockTime
        let legs :=
          if eqFold sum.tokenInMint targetMint then
            some ((sum.tokenInAmount, sum.tokenInDecimals),
              (sum.tokenOutMint, sum.tokenOutAmount, sum.tokenOutDecimals))
          else if eqFold sum.tokenOutMint targetMint then
            some ((sum.tokenOutAmount, sum.tokenOutDecimals),
              (sum.tokenInMint, sum.tokenInAmount, sum.tokenInDecimals))
          else none
        match legs with
        | none => none
        | some ((tAmt, tDec), (cMint, cAmt, cDec)) =>
          let isSOL := eqFold cMint wrappedSOL
          let isStable := eqFold cMint usdcMint || eqFold cMint usdtMint
          let tokQty : ℚ := (tAmt : ℚ) / 10 ^ tDec
          if tokQty ≤ 0 then none
          else
            let priceSOL : ℚ := ((cAmt : ℚ) / 1000000000) / tokQty
            let mk : ℚ → PricePoint := fun priceUSD =>
              { slot := slot
                blockTime := bt
                priceSOLPerToken := if isSOL then priceSOL else 0
                priceUSD := priceUSD
                targetMint := targetMint
                baseMint := cMint
                baseIsSOL := isSOL
                baseIsStable := isStable
                baseAmountRaw := cAmt
                baseDecimals := cDec
                targetQtyFloat := tokQty }
            if isStable then
              some (mk (((cAmt : ℚ) / 10 ^ cDec) / tokQty))
            else if isSOL then
              match solUsd (minuteStart bt) with
              | none => some (mk 0)
              | some s =>
                if s ≤ 0 then some (mk 0) else some (mk (priceSOL * s))
            else none

/-- Pricing loop of `GetPricesAtSlot` (price.go): each filtered
candidate contributes at most one price point, in order. -/
def getPricesAtSlot (slot : ℕ) (targetMint usdcMint usdtMint : Mint)
    (solUsd : ℤ → Option ℚ) (filtered : List TxCandidate) :
    List PricePoint :=
  filtered.filterMap
    (processCandidate slot targetMint usdcMint usdtMint solUsd)

/-! ## Backoff loop of GetTokenUSDPriceAtUnix (price_at_time.go) -/

/-- Per-point body of the `addPoints` closure in
`GetTokenUSDPriceAtUnix` (price_at_time.go): the `(value, weight)` pair
appended for an eligible point, or `none` when the point is skipped —
`PriceUSD ≤ 0`, `TargetQtyFloat ≤ 0`, a counter that is neither stable
nor SOL, or a non-positive weight (the NaN/Inf weight guards are
vacuous in `ℚ`). -/
def eligPair (p : PricePoint) : Option (ℚ × ℚ) :=
  if p.priceUSD ≤ 0 ∨ p.targetQtyFloat ≤ 0 then none
  else
    let wOpt : Option ℚ :=
      if p.baseIsStable then
        some ((p.baseAmountRaw : ℚ) / 10 ^ p.baseDecimals)
      else if p.baseIsSOL then some (p.priceUSD * p.targetQtyFloat)
      else none
    match wOpt with
    | none => none
    | some w => if w ≤ 0 then none else some (p.priceUSD, w)

/-- Probe-trace entry of the backoff loop (ghost instrumentation): the
earlier slot probed and the number of collected `(value, weight)` pairs
at the moment it was probed. -/
structure BackoffProbe where
  slot : ℕ
  collectedBefore : ℕ
deriving Repr, DecidableEq

/-- Backoff loop of `GetTokenUSDPriceAtUnix` (price_at_time.go):
`for len(values) < minPoints && scanned < backoffSlots { ... }`.
Starting below `curr` (initially the best slot) it decrements one slot
at a time; an errored slot (`slotPoints = none`) is skipped silently
and does not increment `scanned`; a non-errored slot has its eligible
pairs appended and increments `scanned`.  The walk ends when `minPoints`
pairs have been collected, `backoffSlots` slots have been scanned, or
slot `0` is reached.  `slotPoints` is the oracle for the per-slot
`GetPricesAtSlot` call.  Returns the probe trace and the collected
pairs. -/
def backoffLoop (slotPoints : ℕ → Option (List PricePoint))
    (minPoints backoffSlots : ℕ) :
    ℕ → ℕ → List (ℚ × ℚ) → List BackoffProbe × List (ℚ × ℚ)
  | curr, scanned, acc =>
    if acc.length < minPoints ∧ scanned < backoffSlots then
      match curr with
      | 0 => ([], acc)
      | c + 1 =>
        match slotPoints c with
        | none =>
          let rest := backoffLoop slotPoints minPoints backoffSlots c
            scanned acc
          (⟨c, acc.length⟩ :: rest.1, rest.2)
        | some pts =>
          let acc2 :=
            if pts.length > 0 then acc ++ pts.filterMap eligPair else acc
          let rest := backoffLoop slotPoints minPoints backoffSlots c
            (scanned + 1) acc2
          (⟨c, acc.length⟩ :: rest.1, rest.2)
    else ([], acc)

/-- Observation-collection phase of `GetTokenUSDPriceAtUnix`: the best
slot is always probed first (an error or empty result contributes
nothing), then the backoff loop walks earlier slots. -/
def collectObservations (slotPoints : ℕ → Option (List PricePoint))
    (minPoints backoffSlots best : ℕ) :
    List BackoffProbe × List (ℚ × ℚ) :=
  let acc0 : List (ℚ × ℚ) :=
    match slotPoints best with
    | none => []
    | some pts => if pts.length > 0 then pts.filterMap eligPair else []
  backoffLoop slotPoints minPoints backoffSlots best 0 acc0

/-- Concrete point used by the theorems about the failed-lookup SOL
path: the output of `GetPricesAtSlot` for a `0.5 SOL → 1 TOK` swap at
slot 5 whose minute-close lookup failed. -/
def solFailPoint : PricePoint :=
  { slot := 5, blockTime := 100, priceSOLPerToken := 1 / 2,
    priceUSD := 0, targetMint := "TOK", baseMint := wrappedSOL,
    baseIsSOL := true, baseIsStable := false, baseAmountRaw := 500000000,
    baseDecimals := 9, targetQtyFloat := 1 }

/-- Concrete eligible observation at slot 9 (price 2, weight 5), used
by the backoff theorems. -/
def obsPointA : PricePoint :=
  { slot := 9, blockTime := 0, priceSOLPerToken := 0, priceUSD := 2,
    targetMint := "TOK", baseMint := mainnetUSDC, baseIsSOL := false,
    baseIsStable := true, baseAmountRaw := 5, baseDecimals := 0,
    targetQtyFloat := 1 }

/-- Concrete eligible observation at slot 8 (price 3, weight 5), used
by the backoff theorems. -/
def obsPointB : PricePoint :=
  { slot := 8, blockTime := 0, priceSOLPerToken := 0, priceUSD := 3,
    targetMint := "TOK", baseMint := mainnetUSDC, baseIsSOL := false,
    baseIsStable := true, baseAmountRaw := 5, baseDecimals := 0,
    targetQtyFloat := 1 }

/-- Concrete per-slot oracle for the backoff theorems: the best slot
(10) yields no points, slot 9 yields one eligible point, slot 8 yields
another, every other slot yields none. -/
def backoffOracle : ℕ → Option (List PricePoint) := fun s =>
  if s = 9 then some [obsPointA]
  else if s = 8 then some [obsPointB]
  else some []

/-- Modelled from the spec (the backoff the claim describes): walk
`slot-1, slot-2, …` up to `backoffSlots` slots and stop immediately at
the first earlier slot that yields at least one eligible point,
returning only that slot's eligible pairs. -/
def specBackoffWalk (slotPoints : ℕ → Option (List PricePoint))
    (backoffSlots : ℕ) : ℕ → ℕ → List (ℚ × ℚ)
  | curr, scanned =>
    if scanned < backoffSlots then
      match curr with
      | 0 => []
      | c + 1 =>
        match slotPoints c with
        | none => specBackoffWalk slotPoints backoffSlots c scanned
        | some pts =>
          let elig := pts.filterMap eligPair
          if elig.length > 0 then elig
          else specBackoffWalk slotPoints backoffSlots c (scanned + 1)
    else []

/-! ## SlotAtClosest (utils.go, minute-slack version) -/

/-- Result of `SlotAtClosest`: an error, or `(best, tie?)`. -/
inductive SlotResult where
  | fail : SlotResult
  | ok (best : ℕ) (tie : Option ℕ) : SlotResult
deriving Repr, DecidableEq

/-- Chain RPC oracle for `SlotAtClosest`: the current finalized slot
(`GetSlot`, modelled as always succeeding), the block-time lookup
(`none` = RPC error or nil time), and the recent performance samples
as `(numSlots, samplePeriodSecs)` pairs (`none` = the call errored). -/
structure ChainOracle where
  nowSlot : ℕ
  blockTime : ℕ → Option ℤ
  perfSamples : Option (List (ℕ × ℕ))

/-- Probe budget plus the ghost trace of slots whose block time was
requested. -/
structure ProbeState where
  budget : ℕ
  probed : List ℕ
deriving Repr, DecidableEq

/-- The budgeted `getBT` closure of `SlotAtClosest` (utils.go): refuse
when the budget is exhausted, otherwise decrement it and issue the RPC
(recorded in the ghost trace whether or not a time comes back). -/
def getBT (o : ChainOracle) (s : ProbeState) (slot : ℕ) :
    Option ℤ × ProbeState :=
  if s.budget = 0 then (none, s)
  else
    (o.blockTime slot,
     { budget := s.budget - 1, probed := s.probed ++ [slot] })

/-- Go `math.Round`: round half away from zero. -/
def goRound (x : ℚ) : ℤ :=
  if 0 ≤ x then ⌊x + 1 / 2⌋ else ⌈x - 1 / 2⌉

/-- `estimateSlotGuess` (utils.go): slots-per-second from the summed
performance samples (fallback 2.5 when the call fails, the sample list
is empty, or the sums are degenerate), then
`guess = round(nowSlot − sps · (btNow − targetUnix))` clamped to
`[0, nowSlot]`.  Returns `(guess, sps)`. -/
def estimateSlotGuess (o : ChainOracle) (btNow targetUnix : ℤ) :
    ℕ × ℚ :=
  let sps0 : ℚ :=
    match o.perfSamples with
    | none => 0
    | some samples =>
      let slots := (samples.map Prod.fst).sum
      let secs := (samples.map Prod.snd).sum
      if 0 < secs ∧ 0 < slots then (slots : ℚ) / (secs : ℚ) else 0
  let sps := if sps0 = 0 then 5 / 2 else sps0
  let dt : ℚ := max 0 ((btNow - targetUnix : ℤ) : ℚ)
  let est : ℚ := max 0 ((o.nowSlot : ℚ) - sps * dt)
  let guess0 := (goRound est).toNat
  (if o.nowSlot < guess0 then o.nowSlot else guess0, sps)

/-- Mutable locals of the bracketing search, bundled. -/
structure BracketState where
  ps : ProbeState
  guess : ℕ
  tGuess : ℤ
  okGuess : Bool
  lo : ℕ
  hi : ℕ
  tLo : ℤ
  tHi : ℤ
  tLoOK : Bool
  tHiOK : Bool
  spanSlots : ℕ
  best : ℕ

/-- The forward nudge inside `expand` (utils.go): try `lo + step` for
each step until a block time is found (`lo` moves only on success; a
step that would cross `hi` is skipped without a probe). -/
def expandNudgeLo (o : ChainOracle) (hi : ℕ) :
    List ℕ → ProbeState → ℕ → ProbeState × ℕ × Option ℤ
  | [], ps, lo => (ps, lo, none)
  | step :: rest, ps, lo =>
    if lo + step ≤ hi then
      match getBT o ps (lo + step) with
      | (some tt, ps1) => (ps1, lo + step, some tt)
      | (none, ps1) => expandNudgeLo o hi rest ps1 lo
    else expandNudgeLo o hi rest ps lo

/-- The backward nudge inside `expand` (utils.go): try `hi - step` for
each step until a block time is found. -/
def expandNudgeHi (o : ChainOracle) (lo : ℕ) :
    List ℕ → ProbeState → ℕ → ProbeState × ℕ × Option ℤ
  | [], ps, hi => (ps, hi, none)
  | step :: rest, ps, hi =>
    if lo + step < hi then
      match getBT o ps (hi - step) with
      | (some tt, ps1) => (ps1, hi - step, some tt)
      | (none, ps1) => expandNudgeHi o lo rest ps1 hi
    else expandNudgeHi o lo rest ps hi

/-- Tail of `expand` (utils.go): after the `lo` side, resolve the `hi`
side the same way, then report `ok = false` only when neither endpoint
has a time (note the source consults the possibly stale `tLoOK`/`tHiOK`
flags here).  The boolean result is `expand`'s `ok`; a minute-slack hit
sets `best` and returns `true` immediately, exactly as the source's
early `return true`. -/
def expandHiSide (o : ChainOracle) (target : ℤ) (s : BracketState) :
    BracketState × Bool :=
  let finish : BracketState → BracketState × Bool := fun s =>
    if s.tLoOK = false ∧ s.tHiOK = false then (s, false) else (s, true)
  match getBT o s.ps s.hi with
  | (some tt, ps1) =>
    let s := { s with ps := ps1, tHi := tt, tHiOK := true }
    if |tt - target| ≤ 60 then ({ s with best := s.hi }, true)
    else finish s
  | (none, ps1) =>
    match expandNudgeHi o s.lo [1000, 5000, 25000] ps1 s.hi with
    | (ps2, hi2, some tt) =>
      let s := { s with ps := ps2, hi := hi2, tHi := tt, tHiOK := true }
      if |tt - target| ≤ 60 then ({ s with best := hi2 }, true)
      else finish s
    | (ps2, hi2, none) => finish { s with ps := ps2, hi := hi2 }

/-- `expand` (utils.go): recenter `[lo, hi]` as `guess ∓ span` (clamped
to `[0, nowSlot]` by `cappedAdd`), then try to obtain times at the two
endpoints, nudging inward on failures; a time within the minute slack
sets `best` to that endpoint and returns `true` at once (skipping the
rest). -/
def expand (o : ChainOracle) (nowSlot : ℕ) (target : ℤ) (span : ℕ)
    (s : BracketState) : BracketState × Bool :=
  let lo := cappedAdd s.guess (-(span : ℤ)) nowSlot
  let hi := cappedAdd s.guess ((span : ℤ)) nowSlot
  let s := { s with lo := lo, hi := hi }
  match getBT o s.ps lo with
  | (some tt, ps1) =>
    let s := { s with ps := ps1, tLo := tt, tLoOK := true }
    if |tt - target| ≤ 60 then ({ s with best := s.lo }, true)
    else expandHiSide o target s
  | (none, ps1) =>
    match expandNudgeLo o hi [1000, 5000, 25000] ps1 lo with
    | (ps2, lo2, some tt) =>
      let s := { s with ps := ps2, lo := lo2, tLo := tt, tLoOK := true }
      if |tt - target| ≤ 60 then ({ s with best := lo2 }, true)
      else expandHiSide o target s
    | (ps2, lo2, none) => expandHiSide o target { s with ps := ps2, lo := lo2 }

/-- The adaptive bracketing loop of `SlotAtClosest` (utils.go):
`for tries := 0; tries < 32 && maxProbes > 0; tries++`.  The fuel is
the remaining tries.  A `some` result is a return from the whole
function (the post-`expand` minute-slack acceptance); `none` means the
loop exited (bracket found, `expand` failed, or fuel/budget ran out)
and control falls through to the code after the loop. -/
def triesLoop (o : ChainOracle) (nowSlot : ℕ) (target : ℤ) :
    ℕ → BracketState → BracketState × Option SlotResult
  | 0, s => (s, none)
  | n + 1, s =>
    if s.ps.budget = 0 then (s, none)
    else
      let step2 : BracketState → BracketState × Option SlotResult := fun s =>
        if s.tLoOK = true ∧ s.tHiOK = true then
          let s :=
            if s.hi < s.lo then
              { s with lo := s.hi, hi := s.lo, tLo := s.tHi, tHi := s.tLo }
            else s
          if s.tLo ≤ target ∧ target ≤ s.tHi then (s, none)
          else if target < s.tLo then
            triesLoop o nowSlot target n
              { s with
                  spanSlots := if s.spanSlots * 2 = 0 then s.spanSlots + 1
                    else s.spanSlots * 2,
                  guess := s.lo, tGuess := s.tLo, okGuess := true,
                  tLoOK := false, tHiOK := false }
          else
            triesLoop o nowSlot target n
              { s with
                  spanSlots := if s.spanSlots * 2 = 0 then s.spanSlots + 1
                    else s.spanSlots * 2,
                  guess := s.hi, tGuess := s.tHi, okGuess := true,
                  tLoOK := false, tHiOK := false }
        else
          triesLoop o nowSlot target n
            { s with
                spanSlots := if s.spanSlots * 2 = 0 then s.spanSlots + 1
                  else s.spanSlots * 2 }
      if ¬ (s.tLoOK = true ∧ s.tHiOK = true) then
        match expand o nowSlot target s.spanSlots s with
        | (s1, false) => (s1, none)
        | (s1, true) =>
          if s1.best ≠ 0 ∧
              (|s1.tLo - target| ≤ 60 ∨ |s1.tHi - target| ≤ 60) then
            (s1, some (SlotResult.ok s1.best none))
          else step2 s1
      else step2 s

/-- The bisection loop of `SlotAtClosest` (utils.go):
`for iter := 0; lo+1 < hi && iter < 64 && maxProbes > 0; iter++`, with
fuel the remaining iterations.  A failed mid probe shrinks toward the
nearer side with the corresponding time flag cleared (and the stale
time set to the source's zero `tMid`); a mid within the minute slack
returns immediately.  (The source's exact-hit tie check `tMid ==
targetUnix` is dead code — `|tMid − target| ≤ 60` has already returned
— and is therefore not modelled.) -/
def bisectLoop (o : ChainOracle) (target : ℤ) :
    ℕ → BracketState → BracketState × Option SlotResult
  | 0, s => (s, none)
  | n + 1, s =>
    if ¬ (s.lo + 1 < s.hi) ∨ s.ps.budget = 0 then (s, none)
    else
      let mid := s.lo + (s.hi - s.lo) / 2
      match getBT o s.ps mid with
      | (none, ps1) =>
        let s := { s with ps := ps1 }
        let s :=
          if mid - s.lo ≤ s.hi - mid then
            if s.lo < mid then { s with hi := mid, tHi := 0, tHiOK := false }
            else { s with lo := mid, tLo := 0, tLoOK := false }
          else
            if mid < s.hi then { s with lo := mid, tLo := 0, tLoOK := false }
            else { s with hi := mid, tHi := 0, tHiOK := false }
        bisectLoop o target n s
      | (some tMid, ps1) =>
        let s := { s with ps := ps1 }
        if |tMid - target| ≤ 60 then (s, some (SlotResult.ok mid none))
        else if tMid < target then
          bisectLoop o target n { s with lo := mid, tLo := tMid, tLoOK := true }
        else
          bisectLoop o target n { s with hi := mid, tHi := tMid, tHiOK := true }

/-- Endpoint pick after bisection (utils.go): prefer the closer
endpoint when either is within the minute slack; otherwise closer wins,
with an exact tie reported as `(lo, some hi)`. -/
def finalPick (target : ℤ) (s : BracketState) : SlotResult :=
  let dLo := |s.tLo - target|
  let dHi := |s.tHi - target|
  if dLo ≤ 60 ∨ dHi ≤ 60 then
    if dLo ≤ dHi then SlotResult.ok s.lo none else SlotResult.ok s.hi none
  else if dLo < dHi then SlotResult.ok s.lo none
  else if dHi < dLo then SlotResult.ok s.hi none
  else SlotResult.ok s.lo (some s.hi)

/-- Everything of `SlotAtClosest` after the bracket seeding: the tries
loop; then either the best-effort fallback (when the endpoints never
both resolved: one refetch each, then `lo`/`hi`/`guess`/`nowSlot` in
that order) or the bisection and the final endpoint pick. -/
def slotAtClosestMain (o : ChainOracle) (nowSlot : ℕ) (target : ℤ)
    (s : BracketState) : SlotResult × ProbeState :=
  match triesLoop o nowSlot target 32 s with
  | (s, some r) => (r, s.ps)
  | (s, none) =>
    if s.tLoOK = true ∧ s.tHiOK = true then
      match bisectLoop o target 64 s with
      | (s, some r) => (r, s.ps)
      | (s, none) => (finalPick target s, s.ps)
    else
      let s :=
        if s.tLoOK = false then
          match getBT o s.ps s.lo with
          | (some tt, ps1) => { s with ps := ps1, tLo := tt, tLoOK := true }
          | (none, ps1) => { s with ps := ps1 }
        else s
      let s :=
        if s.tHiOK = false then
          match getBT o s.ps s.hi with
          | (some tt, ps1) => { s with ps := ps1, tHi := tt, tHiOK := true }
          | (none, ps1) => { s with ps := ps1 }
        else s
      if s.tLoOK = true ∧ s.tHiOK = false then (SlotResult.ok s.lo none, s.ps)
      else if s.tHiOK = true ∧ s.tLoOK = false then
        (SlotResult.ok s.hi none, s.ps)
      else if s.okGuess = true then (SlotResult.ok s.guess none, s.ps)
      else (SlotResult.ok nowSlot none, s.ps)

/-- The guess-nudge loop of `SlotAtClosest` (utils.go): when the
initial guess has no block time, for each step try `guess − step` then
`guess + step`; the first success updates the guess, returns its time
immediately when within the minute slack, and stops.  Returns
`(probe state, guess, tGuess, okGuess, early return?)`. -/
def guessNudge (o : ChainOracle) (nowSlot : ℕ) (target : ℤ) :
    List ℕ → ProbeState → ℕ →
      ProbeState × ℕ × ℤ × Bool × Option SlotResult
  | [], ps, guess => (ps, guess, 0, false, none)
  | step :: rest, ps, guess =>
    if step ≤ guess then
      match getBT o ps (guess - step) with
      | (some tg, ps1) =>
        (ps1, guess - step, tg, true,
         if |tg - target| ≤ 60 then some (SlotResult.ok (guess - step) none)
         else none)
      | (none, ps1) =>
        if guess + step ≤ nowSlot then
          match getBT o ps1 (guess + step) with
          | (some tg, ps2) =>
            (ps2, guess + step, tg, true,
             if |tg - target| ≤ 60 then
               some (SlotResult.ok (guess + step) none)
             else none)
          | (none, ps2) => guessNudge o nowSlot target rest ps2 guess
        else guessNudge o nowSlot target rest ps1 guess
    else
      if guess + step ≤ nowSlot then
        match getBT o ps (guess + step) with
        | (some tg, ps2) =>
          (ps2, guess + step, tg, true,
           if |tg - target| ≤ 60 then
             some (SlotResult.ok (guess + step) none)
           else none)
        | (none, ps2) => guessNudge o nowSlot target rest ps2 guess
      else guessNudge o nowSlot target rest ps guess

/-- `SlotAtClosest` (utils.go, minute-slack version), deterministic over
the oracle.  Returns the result together with the ghost trace of every
slot whose block time was requested (the direct now-slot read
included). -/
def slotAtClosest (o : ChainOracle) (targetUnix0 maxProbes0 : ℤ) :
    SlotResult × List ℕ :=
  let maxProbes : ℕ := if maxProbes0 ≤ 0 then 1024 else maxProbes0.toNat
  let nowSlot := o.nowSlot
  let ps0 : ProbeState := { budget := maxProbes, probed := [nowSlot] }
  match o.blockTime nowSlot with
  | none => (SlotResult.fail, ps0.probed)
  | some btNow =>
    let target := if targetUnix0 ≤ 0 then btNow else targetUnix0
    if btNow ≤ target then (SlotResult.ok nowSlot none, ps0.probed)
    else
      let gsps := estimateSlotGuess o btNow target
      let guess := gsps.1
      let sps := gsps.2
      let lookbackSec : ℚ := max 0 ((btNow - target : ℤ) : ℚ)
      let winSec : ℚ := max 5 (lookbackSec * (5 / 100))
      let spanSlots0 : ℕ := max 200 (goRound (sps * winSec)).toNat
      let spanSlots := if nowSlot < spanSlots0 then nowSlot else spanSlots0
      let afterGuess :=
        match getBT o ps0 guess with
        | (some tg, ps1) =>
          (ps1, guess, tg, true,
           if |tg - target| ≤ 60 then some (SlotResult.ok guess none)
           else none)
        | (none, ps1) =>
          guessNudge o nowSlot target [50, 200, 1000, 5000] ps1 guess
      match afterGuess with
      | (ps2, _, _, _, some r) => (r, ps2.probed)
      | (ps2, guess2, tGuess2, okGuess2, none) =>
        let s0 : BracketState :=
          { ps := ps2, guess := guess2, tGuess := tGuess2,
            okGuess := okGuess2, lo := 0, hi := 0, tLo := 0, tHi := 0,
            tLoOK := false, tHiOK := false, spanSlots := spanSlots,
            best := 0 }
        let s1 :=
          if okGuess2 = true then
            if target ≤ tGuess2 then
              { s0 with
                  lo := 0, hi := guess2, tLoOK := false,
                  tHiOK := true, tHi := tGuess2 }
            else
              { s0 with
                  lo := guess2, hi := nowSlot, tLoOK := true,
                  tHiOK := false, tLo := tGuess2 }
          else (expand o nowSlot target spanSlots s0).1
        match slotAtClosestMain o nowSlot target s1 with
        | (r, psR) => (r, psR.probed)

/-- Oracle for the counterexample run of `slotAtClosest`: the now slot
10000 has time 1050 (within 60 s of the target 1000), the computed
guess 9875 has time 2000, every other slot is unknown; the
performance-sample call errors (so the 2.5 slots/s fallback is
used). -/
def cexOracle : ChainOracle :=
  { nowSlot := 10000,
    blockTime := fun s =>
      if s = 10000 then some 1050
      else if s = 9875 then some 2000
      else none,
    perfSamples := none }

/-- Oracle for the early-accept witness run: as `cexOracle` but the
guess slot 9875 has time 1010, within 60 s of the target 1000. -/
def accOracle : ChainOracle :=
  { nowSlot := 10000,
    blockTime := fun s =>
      if s = 10000 then some 1050
      else if s = 9875 then some 1010
      else none,
    perfSamples := none }

end SwapDecode

namespace SwapDecode

/-! ## Theorems: C5 (minuteFloor), C10 (cappedAdd), C4 (stable mints) -/

/-- C5 counterexample: at `ms = -1` (a valid `int64` millisecond value)
Go's truncating division gives `minuteFloor (-1) = 0`, which is *not*
`≤ -1`; the claimed lower bound fails for negative timestamps. -/
theorem minuteFloor_neg_one_violates_bounds :
    minuteFloor (-1) = 0 ∧ ¬ (minuteFloor (-1) ≤ -1) := by
  constructor <;> decide

/-- C5 (amended): for every nonnegative `int64` millisecond timestamp
`ms`, `minuteFloor ms ≤ ms < minuteFloor ms + 60000`; and `minuteFloor`
is idempotent on all of `int64`. -/
theorem minuteFloor_bounds_and_idem (ms : ℤ) :
    (0 ≤ ms → minuteFloor ms ≤ ms ∧ ms < minuteFloor ms + 60000) ∧
    minuteFloor (minuteFloor ms) = minuteFloor ms := by
  constructor
  · intro h
    unfold minuteFloor
    rw [Int.tdiv_eq_ediv h (by norm_num)]
    constructor
    · exact Int.ediv_mul_le ms (by norm_num)
    · have := Int.emod_lt_of_pos ms (show (0:ℤ) < 60000 by norm_num)
      have heq := Int.ediv_add_emod ms 60000
      omega
  · unfold minuteFloor
    rw [Int.mul_tdiv_cancel _ (show (60000:ℤ) ≠ 0 by norm_num)]

/-- C5 witness: the amended bound instantiated at `ms = 123456`. -/
theorem minuteFloor_bounds_and_idem_witness :
    (minuteFloor 123456 ≤ 123456 ∧ (123456:ℤ) < minuteFloor 123456 + 60000) ∧
    minuteFloor (minuteFloor 123456) = minuteFloor 123456 :=
  ⟨(minuteFloor_bounds_and_idem 123456).1 (by norm_num),
   (minuteFloor_bounds_and_idem 123456).2⟩

/-- C10: for `uint64` values `a ≤ max` and any `int64` `b`, `cappedAdd`
returns exactly the mathematical `a + b` clamped to `[0, max]` (computed
over unbounded integers); in particular the result lies in `[0, max]`
and is never a wrapped-around value. -/
theorem cappedAdd_clamps (a : ℕ) (b : ℤ) (mx : ℕ)
    (ha : a < 2 ^ 64) (hmx : mx < 2 ^ 64)
    (hb1 : -2 ^ 63 ≤ b) (hb2 : b < 2 ^ 63) (hamx : a ≤ mx) :
    (cappedAdd a b mx : ℤ) = max 0 (min ((a : ℤ) + b) (mx : ℤ)) ∧
    cappedAdd a b mx ≤ mx := by
  simp only [cappedAdd]
  split_ifs <;> omega

/-- C10 witness: `cappedAdd 5 (-3) 10 = 2`, the clamp of `5 - 3`. -/
theorem cappedAdd_clamps_witness :
    (cappedAdd 5 (-3) 10 : ℤ) = max 0 (min ((5 : ℤ) + (-3)) (10 : ℤ)) ∧
    cappedAdd 5 (-3) 10 ≤ 10 :=
  cappedAdd_clamps 5 (-3) 10 (by norm_num) (by norm_num) (by norm_num)
    (by norm_num) (by norm_num)

/-- C4 counterexample: with both environment variables unset (so the
base58 parse fails), `mustStableMintsFromEnv` returns the *zero* public
key for both stablecoins — not the known mainnet mints the claim
asserts — so the configuration does yield unusable zero mints. -/
theorem stableMints_default_is_zero_not_mainnet :
    mustStableMintsFromEnv (fun _ => none) "" "" = (zeroMint, zeroMint) ∧
    mustStableMintsFromEnv (fun _ => none) "" "" ≠
      specStableMintsFromEnv (fun _ => none) "" "" ∧
    zeroMint ≠ mainnetUSDC := by
  refine ⟨rfl, ?_, by decide⟩
  simp only [mustStableMintsFromEnv, specStableMintsFromEnv]
  intro h
  have := congrArg Prod.fst h
  exact absurd this (by decide)

/-- C4 (amended): whenever an environment value fails to parse as a
base58 public key (in particular when the variable is unset, giving the
empty string), the corresponding configured stablecoin mint is the zero
public key; `GetPricesAtSlot` then logs a warning and simply does not
count pairs in that stablecoin.  There is no fallback to the mainnet
mints. -/
theorem stableMints_invalid_gives_zero (parse : String → Option Mint)
    (usdcEnv usdtEnv : String) :
    (parse usdcEnv = none →
      (mustStableMintsFromEnv parse usdcEnv usdtEnv).1 = zeroMint) ∧
    (parse usdtEnv = none →
      (mustStableMintsFromEnv parse usdcEnv usdtEnv).2 = zeroMint) := by
  constructor
  · intro h
    simp [mustStableMintsFromEnv, h]
  · intro h
    simp [mustStableMintsFromEnv, h]

/-- C4 witness: the amended statement instantiated at the all-invalid
parse oracle and empty environment values. -/
theorem stableMints_invalid_gives_zero_witness :
    (mustStableMintsFromEnv (fun _ => none) "" "").1 = zeroMint ∧
    (mustStableMintsFromEnv (fun _ => none) "" "").2 = zeroMint :=
  ⟨(stableMints_invalid_gives_zero (fun _ => none) "" "").1 rfl,
   (stableMints_invalid_gives_zero (fun _ => none) "" "").2 rfl⟩

/-! ## Theorems: C3 and C6 (VWAPWithLogFence) -/

/-- C3 counterexample: at `values = [-1, 2, 3]`, `weights = [1, 1, 1]`,
`minWeight = 0`, the non-positive value `-1` survives step 1, and the
median used for the log fence is `medianOf [-1, 2, 3] = 2`, not the
median `5/2` of the entries that survive the drops the claim lists;
so non-positive values are *not* dropped before step 2. -/
theorem step1_keeps_nonpositive_values :
    (⟨-1, 1⟩ : PW) ∈ dustFilter [-1, 2, 3] [1, 1, 1] 0 ∧
    medianOf ((dustFilter [-1, 2, 3] [1, 1, 1] 0).map PW.p) = 2 ∧
    medianOf ((specStep1 [-1, 2, 3] [1, 1, 1] 0).map PW.p) = 5 / 2 ∧
    (2 : ℚ) ≠ 5 / 2 := by
  refine ⟨by decide, by decide, ?_, by norm_num⟩
  norm_num [medianOf, specStep1, List.insertionSort, List.orderedInsert,
    List.zip, List.zipWith, List.filter]

/-- C3 (amended): step 1 of `VWAPWithLogFence` drops exactly the entries
whose weight is below `minWeight` (plus NaN/Inf values, absent from the
rational model); the sign of the value is not examined there, so the
step-2 median ranges over all weight-passing entries, including
non-positive values.  Entries with value `≤ 0` are excluded only
afterwards, by the fence stage itself. -/
theorem dustFilter_ignores_value_sign (values weights : List ℚ)
    (minW : ℚ) :
    (∀ x : PW, x ∈ dustFilter values weights minW ↔
      ((x.p, x.w) ∈ values.zip weights ∧ minW ≤ x.w)) ∧
    (∀ r med : ℚ, ∀ x : PW, x.p ≤ 0 →
      x ∉ fenceKept (dustFilter values weights minW) r med) := by
  constructor
  · intro x
    simp only [dustFilter, List.mem_map, List.mem_filter,
      decide_eq_true_eq]
    constructor
    · rintro ⟨⟨a, b⟩, ⟨hmem, hw⟩, rfl⟩
      exact ⟨hmem, hw⟩
    · rintro ⟨hmem, hw⟩
      exact ⟨(x.p, x.w), ⟨hmem, hw⟩, rfl⟩
  · intro r med x hp hmem
    simp only [fenceKept, List.mem_filter, decide_eq_true_eq] at hmem
    exact absurd hmem.2.1 (not_lt.mpr hp)

/-- C3 witness: the amended characterization instantiated at the
counterexample input and the entry `⟨-1, 1⟩`. -/
theorem dustFilter_ignores_value_sign_witness :
    ((⟨-1, 1⟩ : PW) ∈ dustFilter [-1, 2, 3] [1, 1, 1] 0 ↔
      (((-1 : ℚ), (1 : ℚ)) ∈ ([-1, 2, 3] : List ℚ).zip [1, 1, 1] ∧
        (0 : ℚ) ≤ 1)) ∧
    (⟨-1, 1⟩ : PW) ∉ fenceKept (dustFilter [-1, 2, 3] [1, 1, 1] 0) 2 2 :=
  ⟨(dustFilter_ignores_value_sign [-1, 2, 3] [1, 1, 1] 0).1 ⟨-1, 1⟩,
   (dustFilter_ignores_value_sign [-1, 2, 3] [1, 1, 1] 0).2 2 2 ⟨-1, 1⟩
     (by norm_num)⟩

/-- Helper: over positive arguments the log fence is exactly the
multiplicative band `[med / r, r * med]`. -/
theorem fence_iff_bounds (r med p : ℚ) (hr : 1 < r) (hmed : 0 < med) :
    fenceKeeps r med p ↔ (med / r ≤ p ∧ p ≤ r * med) := by
  have hrR : (1 : ℝ) < (r : ℝ) := by exact_mod_cast hr
  have hmedR : (0 : ℝ) < (med : ℝ) := by exact_mod_cast hmed
  have hrpos : (0 : ℝ) < (r : ℝ) := lt_trans one_pos hrR
  constructor
  · rintro ⟨hp, habs⟩
    have hpR : (0 : ℝ) < (p : ℝ) := by exact_mod_cast hp
    obtain ⟨hlo, hhi⟩ := abs_le.mp habs
    constructor
    · -- med / r ≤ p from  log med − log r ≤ log p
      have h1 : Real.log ((med : ℝ) / (r : ℝ)) ≤ Real.log (p : ℝ) := by
        rw [Real.log_div (ne_of_gt hmedR) (ne_of_gt hrpos)]
        linarith
      have h2 : (med : ℝ) / (r : ℝ) ≤ (p : ℝ) :=
        (Real.log_le_log_iff (div_pos hmedR hrpos) hpR).mp h1
      exact_mod_cast h2
    · -- p ≤ r * med from  log p ≤ log r + log med
      have h1 : Real.log (p : ℝ) ≤ Real.log ((r : ℝ) * (med : ℝ)) := by
        rw [Real.log_mul (ne_of_gt hrpos) (ne_of_gt hmedR)]
        linarith
      have h2 : (p : ℝ) ≤ (r : ℝ) * (med : ℝ) :=
        (Real.log_le_log_iff hpR (mul_pos hrpos hmedR)).mp h1
      exact_mod_cast h2
  · rintro ⟨hlo, hhi⟩
    have hp : 0 < p := lt_of_lt_of_le (div_pos hmed (lt_trans one_pos hr)) hlo
    have hpR : (0 : ℝ) < (p : ℝ) := by exact_mod_cast hp
    refine ⟨hp, abs_le.mpr ⟨?_, ?_⟩⟩
    · have hloR : (med : ℝ) / (r : ℝ) ≤ (p : ℝ) := by exact_mod_cast hlo
      have h1 : Real.log ((med : ℝ) / (r : ℝ)) ≤ Real.log (p : ℝ) :=
        (Real.log_le_log_iff (div_pos hmedR hrpos) hpR).mpr hloR
      rw [Real.log_div (ne_of_gt hmedR) (ne_of_gt hrpos)] at h1
      linarith
    · have hhiR : (p : ℝ) ≤ (r : ℝ) * (med : ℝ) := by exact_mod_cast hhi
      have h1 : Real.log (p : ℝ) ≤ Real.log ((r : ℝ) * (med : ℝ)) :=
        (Real.log_le_log_iff hpR (mul_pos hrpos hmedR)).mpr hhiR
      rw [Real.log_mul (ne_of_gt hrpos) (ne_of_gt hmedR)] at h1
      linarith

/-- C6: with `r > 1` and a positive step-2 median (the guard under which
step 3 runs at all), a dust-filtered observation contributes to the
returned VWAP, kept count and weight sum — i.e. lies in the fence-kept
list — iff `med / r ≤ p ≤ r * med`, equivalently iff
`|ln p − ln med| ≤ ln r`. -/
theorem fence_membership_iff (f : List PW) (r med : ℚ)
    (hr : 1 < r) (hmed : 0 < med)
    (_hmedEq : med = medianOf (f.map PW.p)) :
    ∀ x ∈ f, (x ∈ fenceKept f r med ↔ (med / r ≤ x.p ∧ x.p ≤ r * med)) := by
  intro x hx
  rw [fenceKept, List.mem_filter]
  simp only [decide_eq_true_eq]
  rw [fence_iff_bounds r med x.p hr hmed]
  exact ⟨fun h => h.2, fun h => ⟨hx, h⟩⟩

/-- Helper: an account index outside the touched set has no pre row and
no post row of the target mint, hence a zero delta. -/
theorem deltaAt_eq_zero_of_not_touched (pre post : List TokenBalanceRow)
    (target : Mint) (idx : ℕ) (h : idx ∉ touchedIdxs pre post target) :
    deltaAt pre post target idx = 0 := by
  rw [touchedIdxs, List.mem_dedup, List.mem_append] at h
  push_neg at h
  obtain ⟨hpre, hpost⟩ := h
  have hrows : ∀ rows : List TokenBalanceRow,
      idx ∉ (rowsOfMint rows target).map TokenBalanceRow.accountIndex →
      lastRowFor rows target idx = none := by
    intro rows hmem
    rw [lastRowFor]
    have hnil : (rowsOfMint rows target).filter
        (fun r => r.accountIndex == idx) = [] := by
      rw [List.filter_eq_nil_iff]
      intro r hr hbeq
      rw [beq_iff_eq] at hbeq
      exact hmem (List.mem_map.mpr ⟨r, hr, hbeq⟩)
    rw [hnil]
    rfl
  rw [deltaAt, hrows pre hpre, hrows post hpost]
  rfl

/-- C7: `FilterTxsByMint` keeps a transaction iff at least one of its
per-account deltas on the target mint is non-zero; whether the total
delta is zero is never consulted. -/
theorem keep_iff_some_nonzero_delta (target : Mint) (tx : TxWithMeta) :
    (processTx target tx).isSome ↔ ∃ idx : ℕ, txDeltaAt target tx idx ≠ 0 := by
  obtain ⟨meta⟩ := tx
  cases meta with
  | none => simp [processTx, txDeltaAt]
  | some pp =>
    obtain ⟨pre, post⟩ := pp
    simp only [processTx, txDeltaAt]
    by_cases hempty : rowsOfMint pre target = [] ∧ rowsOfMint post target = []
    · rw [if_pos hempty]
      simp only [Option.isSome_none, Bool.false_eq_true, false_iff,
        not_exists, ne_eq, not_not]
      intro idx
      apply deltaAt_eq_zero_of_not_touched
      simp [touchedIdxs, hempty.1, hempty.2]
    · rw [if_neg hempty]
      by_cases hany : (touchedIdxs pre post target).any
          (fun idx => decide (deltaAt pre post target idx ≠ 0)) = true
      · rw [if_pos hany]
        simp only [Option.isSome_some, true_iff]
        obtain ⟨idx, _, hdec⟩ := List.any_eq_true.mp hany
        exact ⟨idx, of_decide_eq_true hdec⟩
      · rw [if_neg hany]
        simp only [Option.isSome_none, Bool.false_eq_true, false_iff,
          not_exists, ne_eq, not_not]
        intro idx
        by_cases hmem : idx ∈ touchedIdxs pre post target
        · by_contra hne
          exact hany (List.any_eq_true.mpr ⟨idx, hmem, decide_eq_true hne⟩)
        · exact deltaAt_eq_zero_of_not_touched pre post target idx hmem

/-- C7 witness: a transaction whose two per-account deltas on the target
mint are `-5` and `+5` — total delta `0` — is kept. -/
theorem keep_iff_some_nonzero_delta_witness :
    (processTx "M" ⟨some ([⟨0, "M", 10⟩, ⟨1, "M", 0⟩],
        [⟨0, "M", 5⟩, ⟨1, "M", 5⟩])⟩).isSome ∧
    (processTx "M" ⟨some ([⟨0, "M", 10⟩, ⟨1, "M", 0⟩],
        [⟨0, "M", 5⟩, ⟨1, "M", 5⟩])⟩).map FilteredTx.totalDelta = some 0 :=
  ⟨(keep_iff_some_nonzero_delta "M" _).mpr ⟨1, by decide⟩, by decide⟩

/-- C6 witness: at `f = dustFilter [1, 2] [1, 1] 0` with `r = 2` and
median `3/2`, the observation `⟨1, 1⟩` is fence-kept iff
`3/4 ≤ 1 ≤ 3`. -/
theorem fence_membership_iff_witness :
    (⟨1, 1⟩ : PW) ∈ fenceKept (dustFilter [1, 2] [1, 1] 0) 2 (3 / 2) ↔
      ((3 : ℚ) / 2 / 2 ≤ 1 ∧ (1 : ℚ) ≤ 2 * (3 / 2)) :=
  fence_membership_iff (dustFilter [1, 2] [1, 1] 0) 2 (3 / 2)
    (by norm_num) (by norm_num)
    (by norm_num [medianOf, dustFilter, List.insertionSort,
      List.orderedInsert, List.zip, List.zipWith, List.filter])
    ⟨1, 1⟩ (by decide)

/-! ## Theorems: C2 and C8 (GetPricesAtSlot pricing loop) -/

/-- C2 counterexample: a SOL-counter swap whose SOL/USD minute-close
lookup fails (oracle constantly `none`) is still returned by
`GetPricesAtSlot`, with `priceUSD = 0` — the source's `break` leaves
the zero price and the point is appended — so it is not true that every
returned point has `price-USD > 0`. -/
theorem pricer_emits_zero_priceUSD :
    ((getPricesAtSlot 5 "TOK" mainnetUSDC mainnetUSDT (fun _ => none)
        [⟨true, 100, some ⟨some 100,
          some ⟨wrappedSOL, 500000000, 9, "TOK", 1000000000, 9⟩⟩⟩]).map
      (fun p => (p.priceUSD, p.targetQtyFloat, p.baseIsSOL))) =
        [(0, 1, true)] ∧
    ¬ (∀ pt ∈ getPricesAtSlot 5 "TOK" mainnetUSDC mainnetUSDT
        (fun _ => none)
        [⟨true, 100, some ⟨some 100,
          some ⟨wrappedSOL, 500000000, 9, "TOK", 1000000000, 9⟩⟩⟩],
        0 < pt.priceUSD) := by
  have heval : getPricesAtSlot 5 "TOK" mainnetUSDC mainnetUSDT
      (fun _ => none)
      [⟨true, 100, some ⟨some 100,
        some ⟨wrappedSOL, 500000000, 9, "TOK", 1000000000, 9⟩⟩⟩] =
      [{ slot := 5, blockTime := 100, priceSOLPerToken := 1 / 2,
         priceUSD := 0, targetMint := "TOK", baseMint := wrappedSOL,
         baseIsSOL := true, baseIsStable := false,
         baseAmountRaw := 500000000, baseDecimals := 9,
         targetQtyFloat := 1 }] := by
    norm_num [getPricesAtSlot, processCandidate, minuteStart,
      List.filterMap,
      show eqFold wrappedSOL "TOK" = false from by decide,
      show eqFold "TOK" "TOK" = true from by decide,
      show eqFold wrappedSOL wrappedSOL = true from by decide,
      show eqFold wrappedSOL mainnetUSDC = false from by decide,
      show eqFold wrappedSOL mainnetUSDT = false from by decide]
  rw [heval]
  constructor
  · norm_num
  · intro hall
    have := hall _ (List.mem_singleton.mpr rfl)
    norm_num at this

/-- C8: the worked stable-pair example — a swap of 25 USDC
(`counterAmountRaw = 25_000_000` at 6 decimals) for
`targetAmountRaw = 1_000_000_000_000` at 9 decimals produces
`priceUSD = 25 / 1000 = 1/40` and, through the orchestrator's weight
rule, weight `25` (the counter leg's USD notional). -/
theorem stable_pair_example_price_and_weight :
    ((getPricesAtSlot 7 "TOK" mainnetUSDC mainnetUSDT (fun _ => none)
        [⟨true, 0, some ⟨some 0,
          some ⟨mainnetUSDC, 25000000, 6, "TOK", 1000000000000, 9⟩⟩⟩]).map
      (fun p => (p.priceUSD, eligPair p))) =
      [(1 / 40, some (1 / 40, 25))] := by
  have heval : getPricesAtSlot 7 "TOK" mainnetUSDC mainnetUSDT
      (fun _ => none)
      [⟨true, 0, some ⟨some 0,
        some ⟨mainnetUSDC, 25000000, 6, "TOK", 1000000000000, 9⟩⟩⟩] =
      [{ slot := 7, blockTime := 0, priceSOLPerToken := 0,
         priceUSD := 1 / 40, targetMint := "TOK",
         baseMint := mainnetUSDC, baseIsSOL := false,
         baseIsStable := true, baseAmountRaw := 25000000,
         baseDecimals := 6, targetQtyFloat := 1000 }] := by
    norm_num [getPricesAtSlot, processCandidate, minuteStart,
      List.filterMap,
      show eqFold mainnetUSDC "TOK" = false from by decide,
      show eqFold "TOK" "TOK" = true from by decide,
      show eqFold mainnetUSDC wrappedSOL = false from by decide,
      show eqFold mainnetUSDC mainnetUSDC = true from by decide]
  rw [heval]
  norm_num [eligPair]

/-- Helper: a point produced by the candidate loop body has positive
target quantity, and — when its counter is stable with a positive raw
amount — positive USD price. -/
theorem processCandidate_qty_pos (slot : ℕ)
    (targetMint usdcMint usdtMint : Mint) (solUsd : ℤ → Option ℚ)
    (ft : TxCandidate) (pt : PricePoint)
    (h : processCandidate slot targetMint usdcMint usdtMint solUsd ft =
      some pt) :
    0 < pt.targetQtyFloat ∧
      (pt.baseIsStable = true → 0 < pt.baseAmountRaw →
        0 < pt.priceUSD) := by
  simp only [processCandidate] at h
  split at h
  · exact absurd h (by simp)
  split at h
  · exact absurd h (by simp)
  split at h
  · exact absurd h (by simp)
  split at h
  · exact absurd h (by simp)
  rename_i tAmt tDec cMint cAmt cDec heqlegs
  split at h
  · exact absurd h (by simp)
  rename_i hqty
  rw [not_le] at hqty
  split at h
  · -- stable counter
    rename_i hstable
    rw [Option.some.injEq] at h
    subst h
    refine ⟨hqty, fun _ hamt => ?_⟩
    have hc : (0 : ℚ) < (cAmt : ℚ) := by exact_mod_cast hamt
    exact div_pos (div_pos hc (by positivity)) hqty
  split at h
  · -- SOL counter
    rename_i hnotstable hsol
    split at h
    · rw [Option.some.injEq] at h
      subst h
      refine ⟨hqty, fun habs _ => ?_⟩
      simp only [Bool.not_eq_true] at hnotstable
      rw [hnotstable] at habs
      exact absurd habs (by simp)
    split at h
    · rw [Option.some.injEq] at h
      subst h
      refine ⟨hqty, fun habs _ => ?_⟩
      simp only [Bool.not_eq_true] at hnotstable
      rw [hnotstable] at habs
      exact absurd habs (by simp)
    · rw [Option.some.injEq] at h
      subst h
      refine ⟨hqty, fun habs _ => ?_⟩
      simp only [Bool.not_eq_true] at hnotstable
      rw [hnotstable] at habs
      exact absurd habs (by simp)
  · exact absurd h (by simp)

/-- C2 (amended): every point returned by `GetPricesAtSlot` has
positive target quantity, and a stable-counter point with a positive
raw counter amount has positive `priceUSD`; but a returned point may
carry `priceUSD = 0` — in particular a wrapped-SOL-counter point whose
minute-close lookup failed — and points with non-positive `priceUSD`
are dropped later by the orchestrator's `addPoints` eligibility filter,
not by `GetPricesAtSlot`. -/
theorem pricer_qty_pos_and_nonpos_usd_dropped_later (slot : ℕ)
    (targetMint usdcMint usdtMint : Mint) (solUsd : ℤ → Option ℚ)
    (filtered : List TxCandidate) :
    (∀ pt ∈ getPricesAtSlot slot targetMint usdcMint usdtMint solUsd
        filtered,
      0 < pt.targetQtyFloat ∧
        (pt.baseIsStable = true → 0 < pt.baseAmountRaw →
          0 < pt.priceUSD)) ∧
    (∀ pt : PricePoint, pt.priceUSD ≤ 0 → eligPair pt = none) := by
  constructor
  · intro pt hpt
    rw [getPricesAtSlot, List.mem_filterMap] at hpt
    obtain ⟨ft, _, hft⟩ := hpt
    exact processCandidate_qty_pos slot targetMint usdcMint usdtMint
      solUsd ft pt hft
  · intro pt hle
    rw [eligPair, if_pos (Or.inl hle)]

/-- C2 witness: the amended statement instantiated at the failed-lookup
SOL point — its target quantity is positive, the stable clause is
vacuous, and its `priceUSD = 0` makes the orchestrator's filter drop
it. -/
theorem pricer_qty_pos_witness :
    0 < solFailPoint.targetQtyFloat ∧ eligPair solFailPoint = none :=
  ⟨((pricer_qty_pos_and_nonpos_usd_dropped_later 5 "TOK" mainnetUSDC
      mainnetUSDT (fun _ => none)
      [⟨true, 100, some ⟨some 100,
        some ⟨wrappedSOL, 500000000, 9, "TOK", 1000000000, 9⟩⟩⟩]).1
      solFailPoint
      (by
        norm_num [getPricesAtSlot, processCandidate, minuteStart,
          List.filterMap, solFailPoint,
          show eqFold wrappedSOL "TOK" = false from by decide,
          show eqFold "TOK" "TOK" = true from by decide,
          show eqFold wrappedSOL wrappedSOL = true from by decide,
          show eqFold wrappedSOL mainnetUSDC = false from by decide,
          show eqFold wrappedSOL mainnetUSDT = false from by decide])).1,
   (pricer_qty_pos_and_nonpos_usd_dropped_later 5 "TOK" mainnetUSDC
      mainnetUSDT (fun _ => none) []).2 solFailPoint
     (by norm_num [solFailPoint])⟩

/-! ## Theorems: C1 (backoff loop of GetTokenUSDPriceAtUnix) -/

/-- C1 counterexample: with the default `minPoints = 3`, a best slot
(10) yielding nothing and the first earlier slot (9) yielding one
eligible point, the loop keeps walking and also collects slot 8's
point — the collected values are `[2, 3]` and the trace shows slot 8
probed after slot 9 already yielded — whereas the stop-at-first-hit
walk described by the claim collects only `[2]`. -/
theorem backoff_collects_past_first_hit :
    ((collectObservations backoffOracle 3 5 10).2).map Prod.fst =
      [2, 3] ∧
    (specBackoffWalk backoffOracle 5 10 0).map Prod.fst = [2] ∧
    (⟨8, 1⟩ : BackoffProbe) ∈ (collectObservations backoffOracle 3 5 10).1 := by
  refine ⟨?_, ?_, ?_⟩ <;>
    norm_num [collectObservations, backoffLoop, specBackoffWalk,
      backoffOracle, eligPair, obsPointA, obsPointB, List.filterMap]

/-- C1 (amended): the backoff walks earlier slots one at a time
(`slot-1, slot-2, …`: the probe trace is consecutive descending), and
probes an earlier slot only while fewer than `minPoints` eligible
observations have been collected; once the count reaches `minPoints`
(default 3) the walk stops, so nothing is collected from any slot
strictly earlier than the slot where the count reached `minPoints`.
With `minPoints = 1` this is exactly "stop at the first earlier slot
that yields an eligible point". -/
theorem backoff_probes_only_below_minPoints
    (slotPoints : ℕ → Option (List PricePoint))
    (minPoints backoffSlots : ℕ) :
    ∀ curr scanned acc,
      (∀ pr ∈ (backoffLoop slotPoints minPoints backoffSlots curr
          scanned acc).1, pr.collectedBefore < minPoints) ∧
      ((backoffLoop slotPoints minPoints backoffSlots curr scanned
          acc).1.map BackoffProbe.slot) =
        (List.range (backoffLoop slotPoints minPoints backoffSlots curr
          scanned acc).1.length).map (fun i => curr - 1 - i) := by
  intro curr
  induction curr with
  | zero =>
    intro scanned acc
    rw [backoffLoop]
    by_cases hcond : acc.length < minPoints ∧ scanned < backoffSlots
    · rw [if_pos hcond]
      simp
    · rw [if_neg hcond]
      simp
  | succ c ih =>
    intro scanned acc
    rw [backoffLoop]
    by_cases hcond : acc.length < minPoints ∧ scanned < backoffSlots
    · rw [if_pos hcond]
      cases hsp : slotPoints c with
      | none =>
        simp only []
        constructor
        · intro pr hpr
          rcases List.mem_cons.mp hpr with h | h
          · subst h
            exact hcond.1
          · exact (ih scanned acc).1 pr h
        · rw [List.map_cons, (ih scanned acc).2, List.length_cons,
            List.range_succ_eq_map, List.map_cons, List.map_map]
          congr 1
          refine List.map_congr_left fun i _ => ?_
          simp only [Function.comp_apply]
          omega
      | some pts =>
        simp only []
        constructor
        · intro pr hpr
          rcases List.mem_cons.mp hpr with h | h
          · subst h
            exact hcond.1
          · exact (ih (scanned + 1) _).1 pr h
        · rw [List.map_cons, (ih (scanned + 1) _).2, List.length_cons,
            List.range_succ_eq_map, List.map_cons, List.map_map]
          congr 1
          refine List.map_congr_left fun i _ => ?_
          simp only [Function.comp_apply]
          omega
    · rw [if_neg hcond]
      simp

/-- C1 witness: the amended statement instantiated at an all-error
oracle with `minPoints = 1`, starting at slot 5 — slot 2's probe was
made with 0 collected observations, and the probe trace is the
consecutive descending `[4, 3, 2, 1, 0]`. -/
theorem backoff_probes_only_below_minPoints_witness :
    ((⟨2, 0⟩ : BackoffProbe).collectedBefore < 1) ∧
    ((backoffLoop (fun _ => none) 1 2 5 0 []).1.map BackoffProbe.slot =
      (List.range (backoffLoop (fun _ => none) 1 2 5 0
        []).1.length).map (fun i => 5 - 1 - i)) :=
  ⟨(backoff_probes_only_below_minPoints (fun _ => none) 1 2 5 0 []).1
      ⟨2, 0⟩ (by decide),
   (backoff_probes_only_below_minPoints (fun _ => none) 1 2 5 0 []).2⟩

/-! ## Theorems: C9 (SlotAtClosest minute-slack early accept) -/

/-- C9 counterexample: with probe budget 1, the initial now-slot read
(slot 10000, time 1050) is within 60 s of the target 1000, yet
`SlotAtClosest` returns slot 9875 whose time 2000 is 1000 s away — the
direct now-slot block-time read is never checked against the minute
slack, and the budget-exhausted fallback returns the `hi` endpoint
regardless.  So a probed slot within 60 s does not make the result be
within 60 s. -/
theorem slotAtClosest_result_not_within_slack :
    slotAtClosest cexOracle 1000 1 =
      (SlotResult.ok 9875 none, [10000, 9875]) ∧
    cexOracle.blockTime 10000 = some 1050 ∧
    |(1050 : ℤ) - 1000| ≤ 60 ∧
    cexOracle.blockTime 9875 = some 2000 ∧
    ¬ (|(2000 : ℤ) - 1000| ≤ 60) := by
  refine ⟨by decide, rfl, by decide, rfl, by decide⟩

/-- C9 (amended): the spec's step-4 early accept does hold at the
*budgeted* guess probe — whenever the run reaches the guess probe
(now-slot time known, `0 < target < btNow`) and the guess's block time
is known and within 60 s of the target, `SlotAtClosest` returns the
guess immediately, so the result's block time is within 60 s.  (The
initial now-slot read and the post-loop refetches are not covered by
any slack check, as the counterexample shows.) -/
theorem slotAtClosest_guess_early_accept (o : ChainOracle)
    (targetUnix maxProbes0 btNow tg : ℤ)
    (hbt : o.blockTime o.nowSlot = some btNow)
    (htpos : 0 < targetUnix) (hlt : targetUnix < btNow)
    (hg : o.blockTime (estimateSlotGuess o btNow targetUnix).1 = some tg)
    (hslack : |tg - targetUnix| ≤ 60) :
    (slotAtClosest o targetUnix maxProbes0).1 =
      SlotResult.ok (estimateSlotGuess o btNow targetUnix).1 none := by
  have h1 : (targetUnix ≤ 0) = False := eq_false (not_le.mpr htpos)
  have h2 : (btNow ≤ targetUnix) = False := eq_false (not_le.mpr hlt)
  have hbud : ¬ ((if maxProbes0 ≤ 0 then (1024 : ℕ) else
      maxProbes0.toNat) = 0) := by
    split_ifs with h
    · norm_num
    · omega
  simp only [slotAtClosest, getBT, hbt, h1, h2, if_false, ite_false,
    if_true, ite_true, if_neg hbud, hg, eq_true hslack]

/-- C9 witness: the amended early accept instantiated at a concrete
oracle whose guess slot (9875) has time 1010, 10 s from the target. -/
theorem slotAtClosest_guess_early_accept_witness :
    (slotAtClosest accOracle 1000 5).1 =
      SlotResult.ok (estimateSlotGuess accOracle 1050 1000).1 none :=
  slotAtClosest_guess_early_accept accOracle 1000 5 1050 1010 rfl
    (by norm_num) (by norm_num) (by decide) (by decide)

end SwapDecode
